import Mathlib

/-!
Verification of the Soros chatbot repository core
(`src/pdf_reader.py`, `src/soros_knowledge_base.py`, `src/soros_chatbot.py`)
against its natural-language specification, via a shallow embedding in Lean 4.
-/

namespace SorosSpec

/-- Python `range(0, n, step)` for `step > 0`: the indices `0, step, 2*step, ...`
that are strictly below `n` (used by `PDFReader.split_into_chunks`, line 156). -/
def pyRange (n step : Nat) : List Nat :=
  (List.range ((n + step - 1) / step)).map (fun i => i * step)

/-- Python `' '.join(words)`: concatenate the words separated by single spaces
(used by `PDFReader.split_into_chunks`, line 157). -/
def joinWords : List String → String
  | [] => ""
  | [w] => w
  | w :: ws => w ++ " " ++ joinWords ws

/-- Strip leading and trailing whitespace from a character list
(Python `str.strip()`). -/
def stripChars (cs : List Char) : List Char :=
  ((cs.dropWhile Char.isWhitespace).reverse.dropWhile Char.isWhitespace).reverse

/-- Python `str.strip()` on strings. -/
def pyStrip (s : String) : String :=
  String.mk (stripChars s.data)

/-- `PDFReader.split_into_chunks` (src/src/pdf_reader.py lines 151-161), taking the
word list `words = text.split()` as input: walk the words with a window of
`chunk_size` words advanced `chunk_size - overlap` words per step, join each
window with single spaces, and keep the windows that are nonempty after
stripping (`if chunk.strip():`). -/
def split_into_chunks (words : List String) (chunk_size overlap : Nat) : List String :=
  (pyRange words.length (chunk_size - overlap)).foldl
    (fun chunks i =>
      let chunk := joinWords ((words.drop i).take chunk_size)
      if pyStrip chunk ≠ "" then chunks ++ [chunk] else chunks)
    []

/-- Helper for `collapseWS`: the boolean records whether the previous
character was part of a whitespace run already replaced by one space. -/
def collapseWSAux : Bool → List Char → List Char
  | _, [] => []
  | prevWS, c :: cs =>
    if c.isWhitespace then
      if prevWS then collapseWSAux true cs else ' ' :: collapseWSAux true cs
    else c :: collapseWSAux false cs

/-- First cleaning pass of `PDFReader.clean_text` (line 89):
`re.sub(r'\s+', ' ', text)` — collapse every maximal run of whitespace to a
single space. -/
def collapseWS (cs : List Char) : List Char :=
  collapseWSAux false cs

/-- Split a character list on newline characters (the line structure used by
`re.MULTILINE` in `clean_text`, line 92). -/
def splitOnNewline : List Char → List (List Char)
  | [] => [[]]
  | c :: cs =>
    if c = '\n' then [] :: splitOnNewline cs
    else
      match splitOnNewline cs with
      | [] => [[c]]
      | l :: ls => (c :: l) :: ls

/-- Rejoin lines with newline characters. -/
def joinNewline : List (List Char) → List Char
  | [] => []
  | [l] => l
  | l :: ls => l ++ '\n' :: joinNewline ls

/-- Full match of the regex `\d+\s*` (the per-line pattern of
`re.sub(r'^\d+\s*$', '', text, flags=re.MULTILINE)`, line 92): one or more
digits followed by optional whitespace. -/
def pyMatchDigitLine (cs : List Char) : Bool :=
  let ds := cs.takeWhile Char.isDigit
  !ds.isEmpty && (cs.drop ds.length).all Char.isWhitespace

/-- Second cleaning pass of `PDFReader.clean_text` (line 92): blank out every
line that is pure digits (with trailing whitespace). -/
def removeDigitLines (cs : List Char) : List Char :=
  joinNewline ((splitOnNewline cs).map (fun l => if pyMatchDigitLine l then [] else l))

/-- Python regex `\w` (ASCII fragment): letters, digits and underscore. -/
def pyIsWordChar (c : Char) : Bool := c.isAlphanum || c == '_'

/-- The character whitelist of `clean_text` line 95: the regex
`[^\w\s\.\,\!\?\;\:\-\(\)\[\]\x7b\x7d\"\']` deletes every character that is
not a word character, whitespace, or one of the listed punctuation marks. -/
def whitelistChar (c : Char) : Bool :=
  pyIsWordChar c || c.isWhitespace ||
    ['.', ',', '!', '?', ';', ':', '-', '(', ')', '[', ']', '\x7b', '\x7d', '\"', '\''].contains c

/-- Python `str.replace(a, b)` for single characters. -/
def pyReplaceChar (cs : List Char) (a b : Char) : List Char :=
  cs.map (fun c => if c == a then b else c)

/-- `PDFReader.clean_text` (src/src/pdf_reader.py lines 86-101): collapse
whitespace, strip pure-digit lines, delete characters outside the whitelist,
replace `|` with `I` and `0` with `O`, and strip the ends. -/
def clean_text (text : String) : String :=
  let t1 := collapseWS text.data
  let t2 := removeDigitLines t1
  let t3 := t2.filter whitelistChar
  let t4 := pyReplaceChar t3 '|' 'I'
  let t5 := pyReplaceChar t4 '0' 'O'
  String.mk (stripChars t5)

/-- The value each extraction method contributes to `extract_text_combined`:
each of `extract_text_pymupdf`, `extract_text_pdfplumber`, `extract_text_pypdf2`
catches its own exceptions and returns `""` on failure (lines 26-64). -/
def methodResult (r : Except String String) : String :=
  match r with
  | .ok t => t
  | .error _ => ""

/-- `PDFReader.extract_text_combined` (src/src/pdf_reader.py lines 66-84):
fold over the ordered method results, keeping the text that is strictly longer
than the best so far (`if len(text) > len(best_text)`), starting from `""`.
The list stands for the outputs of `[pymupdf, pdfplumber, pypdf2]` in order. -/
def extract_text_combined (results : List (Except String String)) : String :=
  results.foldl
    (fun best r =>
      let text := methodResult r
      if text.length > best.length then text else best)
    ""

/-- The value stored for one concept: `{"definition": ..., "key_points": [...]}`
(src/src/soros_knowledge_base.py lines 27-54). -/
structure ConceptData where
  definition : String
  key_points : List String
deriving DecidableEq

/-- A Python `dict` from concept name to concept data, modelled as an
insertion-ordered association list with unique keys. -/
abbrev ConceptDict := List (String × ConceptData)

/-- Python `k in d` for the concept dict. -/
def dictContains (d : ConceptDict) (k : String) : Bool :=
  d.any (fun p => p.1 == k)

/-- Python `d[k] = v`: update in place if the key exists (keeping its
position), else append at the end. -/
def dictSet (d : ConceptDict) (k : String) (v : ConceptData) : ConceptDict :=
  if dictContains d k then d.map (fun p => if p.1 == k then (k, v) else p)
  else d ++ [(k, v)]

/-- Python `d.get(k)`. -/
def dictGet (d : ConceptDict) (k : String) : Option ConceptData :=
  (d.find? (fun p => p.1 == k)).map (fun p => p.2)

/-- Python `list(d.keys())` (iteration order = insertion order). -/
def dictKeys (d : ConceptDict) : List String :=
  d.map (fun p => p.1)

/-- Python `d.update(e)`: write every key/value of `e`, in `e`'s order,
into `d`. -/
def dictUpdate (d e : ConceptDict) : ConceptDict :=
  e.foldl (fun acc p => dictSet acc p.1 p.2) d

/-- The built-in seed concepts set in `SorosKnowledgeBase.__init__`
(src/src/soros_knowledge_base.py lines 26-55). -/
def seed_concepts : ConceptDict :=
  [ ("reflexivity",
     { definition := "The theory that market participants' perceptions can influence market fundamentals, creating a feedback loop between thinking and reality.",
       key_points :=
        [ "Markets are not always efficient",
          "Perceptions can become reality",
          "Self-reinforcing cycles exist",
          "Fallibility of human understanding" ] }),
    ("open_society",
     { definition := "A society characterized by democracy, rule of law, respect for human rights, and open markets.",
       key_points :=
        [ "Democratic governance",
          "Free press and expression",
          "Rule of law",
          "Market economy with regulation",
          "Respect for minority rights" ] }),
    ("market_fundamentalism",
     { definition := "The belief that markets are always right and should be left to their own devices without regulation.",
       key_points :=
        [ "Criticism of laissez-faire economics",
          "Need for regulation",
          "Market imperfections",
          "Role of government intervention" ] }) ]

/-- The built-in seed quotes set in `SorosKnowledgeBase.__init__`
(src/src/soros_knowledge_base.py lines 70-79). -/
def seed_quotes : List String :=
  [ "The financial markets generally are unpredictable. So that one has to have different scenarios... The idea that you can actually predict what's going to happen contradicts my way of looking at the market.",
    "I'm only rich because I know when I'm wrong. I basically have survived by recognizing my mistakes.",
    "The main enemy of the open society, I believe, is no longer the communist but the capitalist threat.",
    "Markets are constantly in a state of uncertainty and flux and money is made by discounting the obvious and betting on the unexpected.",
    "The financial markets are not a zero-sum game. They are a positive-sum game.",
    "I am not a businessman. I am a speculator.",
    "The euro is like a marriage without a divorce clause.",
    "The current crisis is not only the bust that follows the housing boom, but something much bigger: it is the end of a 60-year period of credit expansion based on the dollar as the international reserve currency." ]

/-- The mutable state of a `SorosKnowledgeBase` instance: its concept dict and
its quote list (`writing_style` is a constant record, never mutated). -/
structure KnowledgeBase where
  soros_concepts : ConceptDict
  soros_quotes : List String
deriving DecidableEq

/-- The in-memory state right after the seed assignments of `__init__`,
before `load_knowledge_base` runs. -/
def initKB : KnowledgeBase :=
  { soros_concepts := seed_concepts, soros_quotes := seed_quotes }

/-- The on-disk snapshot `soros_knowledge.json`: top-level keys `concepts`
and `quotes` (the constant `writing_style` is also written but never read
back, `load_knowledge_base` line 91-92). -/
structure KBData where
  concepts : ConceptDict
  quotes : List String
deriving DecidableEq

/-- `SorosKnowledgeBase.save_knowledge_base` (lines 99-114): the snapshot
written to disk is the full current state. -/
def save_knowledge_base (kb : KnowledgeBase) : KBData :=
  { concepts := kb.soros_concepts, quotes := kb.soros_quotes }

/-- `SorosKnowledgeBase.load_knowledge_base` (lines 83-97): if the snapshot
file exists, merge it into the current state with
`self.soros_concepts.update(data.get('concepts', {}))` and
`self.soros_quotes.extend(data.get('quotes', []))`; then save (the save does
not change the in-memory state). `none` models a missing or unreadable file. -/
def load_knowledge_base (kb : KnowledgeBase) (file : Option KBData) : KnowledgeBase :=
  match file with
  | none => kb
  | some data =>
    { kb with
      soros_concepts := dictUpdate kb.soros_concepts data.concepts,
      soros_quotes := kb.soros_quotes ++ data.quotes }

/-- Constructing a fresh `SorosKnowledgeBase` (lines 21-81): seed the state,
then run `load_knowledge_base` against the on-disk snapshot. -/
def sorosKB_init (file : Option KBData) : KnowledgeBase :=
  load_knowledge_base initKB file

/-- `SorosKnowledgeBase.add_concept` (lines 116-122): upsert by name, then
always persist. The boolean records whether `save_knowledge_base` ran. -/
def add_concept (kb : KnowledgeBase) (concept_name definition : String)
    (key_points : List String) : KnowledgeBase × Bool :=
  ({ kb with
     soros_concepts :=
       dictSet kb.soros_concepts concept_name
         { definition := definition, key_points := key_points } },
   true)

/-- `SorosKnowledgeBase.add_quote` (lines 124-128): append only if the exact
text is not already present; persist only in that case. The boolean records
whether `save_knowledge_base` ran. -/
def add_quote (kb : KnowledgeBase) (quote : String) : KnowledgeBase × Bool :=
  if quote ∈ kb.soros_quotes then (kb, false)
  else ({ kb with soros_quotes := kb.soros_quotes ++ [quote] }, true)

/-- `SorosKnowledgeBase.get_random_quote` (lines 134-137):
`random.choice(self.soros_quotes)`, with the random source modelled as a
natural number `r` reduced modulo the length. On an empty sequence
`random.choice` raises `IndexError('Cannot choose from an empty sequence')`. -/
def get_random_quote (kb : KnowledgeBase) (r : Nat) : Except String String :=
  if h : 0 < kb.soros_quotes.length then
    Except.ok (kb.soros_quotes.get ⟨r % kb.soros_quotes.length, Nat.mod_lt r h⟩)
  else
    Except.error "IndexError: Cannot choose from an empty sequence"

/-- Python `str.lower()` (per-character lowering, ASCII fragment). -/
def pyLower (s : String) : String :=
  String.mk (s.data.map Char.toLower)

/-- Contiguous-sublist test on character lists (Python `needle in haystack`
for strings). -/
def pyInfix (needle : List Char) : List Char → Bool
  | [] => needle.isEmpty
  | c :: rest => List.isPrefixOf needle (c :: rest) || pyInfix needle rest

/-- Python `needle in haystack` for strings. -/
def pyContains (haystack needle : String) : Bool :=
  pyInfix needle.data haystack.data

/-- `SorosKnowledgeBase.search_concepts` (lines 139-153): keep every concept,
in dict iteration order, whose lower-cased name, definition, or any key point
contains the lower-cased query as a substring. The source wraps each hit as
`{'concept': name, 'data': data}`; we return the `(name, data)` pair. -/
def search_concepts (kb : KnowledgeBase) (query : String) : List (String × ConceptData) :=
  kb.soros_concepts.filter
    (fun p =>
      pyContains (pyLower p.1) (pyLower query) ||
      pyContains (pyLower p.2.definition) (pyLower query) ||
      p.2.key_points.any (fun point => pyContains (pyLower point) (pyLower query)))

/-- The fixed head of the f-string of
`SorosKnowledgeBase.generate_context_prompt` (lines 167-177), up to and
including the quote line and the blank line after it. -/
def context_header (relevant_quote : String) : String :=
  "You are George Soros, the renowned investor, philanthropist, and philosopher. \n\nKey aspects of your thinking:\n- You believe in the theory of reflexivity: that market participants' perceptions can influence market fundamentals\n- You advocate for open societies with democratic governance and rule of law\n- You are critical of market fundamentalism and advocate for proper regulation\n- You think globally and long-term about systemic issues\n\nRelevant quote: \"" ++
    relevant_quote ++ "\"\n\n"

/-- The optional concepts block of `generate_context_prompt` (lines 179-182):
present only when there are matches, listing the first 3 as
`- name: definition` lines. -/
def concepts_block (relevant_concepts : List (String × ConceptData)) : String :=
  if relevant_concepts.isEmpty then ""
  else
    "Relevant concepts:\n" ++
      (relevant_concepts.take 3).foldl
        (fun acc c => acc ++ "- " ++ c.1 ++ ": " ++ c.2.definition ++ "\n") ""

/-- The fixed tail of `generate_context_prompt` (line 184), to which the
verbatim user query is appended. -/
def context_footer : String :=
  "\nRespond to the user's question in your characteristic philosophical and analytical style: "

/-- `SorosKnowledgeBase.generate_context_prompt` (lines 159-186): draw one
random quote (which can raise on an empty quote list), search the concepts
with the user query, and assemble header + optional concepts block + footer +
verbatim user query. -/
def generate_context_prompt (kb : KnowledgeBase) (r : Nat) (user_query : String) :
    Except String String :=
  match get_random_quote kb r with
  | .error e => .error e
  | .ok relevant_quote =>
    let relevant_concepts := search_concepts kb user_query
    .ok (context_header relevant_quote ++ concepts_block relevant_concepts ++
          (context_footer ++ user_query))

/-- The quote-folding loop of `SorosChatbot.load_pdf`
(src/src/soros_chatbot.py lines 113-114): every extracted quote is pushed
through `add_quote`. -/
def foldAddQuotes (kb : KnowledgeBase) (quotes : List String) : KnowledgeBase :=
  quotes.foldl (fun acc q => (add_quote acc q).1) kb

/-- Message roles of the LangChain message objects used in
`SorosChatbot.chat` (`SystemMessage`, `HumanMessage`, AI reply). -/
inductive Role where
  | system
  | user
  | assistant
deriving DecidableEq

/-- One conversation turn. -/
structure ChatMessage where
  role : Role
  content : String
deriving DecidableEq

/-- The fixed fallback reply of `SorosChatbot.chat` (src/src/soros_chatbot.py
line 189), embedding the original message. -/
def chat_fallback (message : String) : String :=
  "I apologize, but I'm experiencing some difficulties. As I often say, 'I'm only rich because I know when I'm wrong.' Let me try to address your question: " ++
    message

/-- The outbound message sequence built by `SorosChatbot.chat`
(lines 157-161 / 173-177): system persona, prior transcript, then the user
turn carrying `user_content` (the augmented prompt or the raw message). -/
def chat_outbound (system_prompt : String) (history : List ChatMessage)
    (user_content : String) : List ChatMessage :=
  ChatMessage.mk Role.system system_prompt ::
    (history ++ [ChatMessage.mk Role.user user_content])

/-- `SorosChatbot.chat` (src/src/soros_chatbot.py lines 146-189). The
completion service is the function `llm`; an `Except.error` models a raised
exception. Returns the reply text and the new transcript. On any raised
error the `except` block returns the fallback string, and — because the two
`memory.chat_memory.add_*` calls sit after the service call inside the `try`
block — the transcript is left untouched. -/
def chat (llm : List ChatMessage → Except String String) (system_prompt : String)
    (kb : KnowledgeBase) (r : Nat) (history : List ChatMessage)
    (message : String) (use_context : Bool) : String × List ChatMessage :=
  if use_context then
    match generate_context_prompt kb r message with
    | .error _ => (chat_fallback message, history)
    | .ok context_prompt =>
      match llm (chat_outbound system_prompt history context_prompt) with
      | .ok reply =>
        (reply,
         history ++ [ChatMessage.mk Role.user context_prompt,
                     ChatMessage.mk Role.assistant reply])
      | .error _ => (chat_fallback message, history)
  else
    match llm (chat_outbound system_prompt history message) with
    | .ok reply =>
      (reply,
       history ++ [ChatMessage.mk Role.user message,
                   ChatMessage.mk Role.assistant reply])
    | .error _ => (chat_fallback message, history)

/-! ## Helper lemmas -/

theorem string_eq_empty_of_length_zero {s : String} (h : s.length = 0) : s = "" := by
  cases s with
  | mk data =>
    simp only [String.length] at h
    simp [List.length_eq_zero] at h
    simp [h]

theorem mem_stripChars {c : Char} {cs : List Char} (h : c ∈ stripChars cs) : c ∈ cs := by
  unfold stripChars at h
  rw [List.mem_reverse] at h
  have h1 := (List.dropWhile_sublist Char.isWhitespace).subset h
  rw [List.mem_reverse] at h1
  exact (List.dropWhile_sublist Char.isWhitespace).subset h1

theorem stripChars_ne_nil {cs : List Char} {c : Char} (hc : c ∈ cs)
    (hw : ¬ c.isWhitespace = true) : stripChars cs ≠ [] := by
  intro h
  unfold stripChars at h
  rw [List.reverse_eq_nil_iff, List.dropWhile_eq_nil_iff] at h
  have hdrop : ∀ a ∈ cs.dropWhile Char.isWhitespace, a.isWhitespace = true := by
    intro a ha
    exact h a (List.mem_reverse.mpr ha)
  have hsplit : c ∈ cs.takeWhile Char.isWhitespace ∨ c ∈ cs.dropWhile Char.isWhitespace := by
    rw [← List.mem_append, List.takeWhile_append_dropWhile]
    exact hc
  rcases hsplit with h1 | h1
  · exact hw (List.mem_takeWhile_imp h1)
  · exact hw (hdrop c h1)

theorem pyStrip_ne_empty {s : String} {c : Char} (hc : c ∈ s.data)
    (hw : ¬ c.isWhitespace = true) : pyStrip s ≠ "" := by
  intro h
  have hne := stripChars_ne_nil hc hw
  apply hne
  have : (pyStrip s).data = ("" : String).data := by rw [h]
  simpa [pyStrip] using this

theorem mem_joinWords_data {c : Char} {w : String} :
    ∀ {l : List String}, w ∈ l → c ∈ w.data → c ∈ (joinWords l).data := by
  intro l
  induction l with
  | nil => intro h; cases h
  | cons x xs ih =>
    intro hw hc
    rcases List.mem_cons.mp hw with heq | htail
    · subst heq
      cases xs with
      | nil => simpa [joinWords] using hc
      | cons y ys =>
        rw [show joinWords (w :: y :: ys) = w ++ " " ++ joinWords (y :: ys) from rfl,
          String.data_append, String.data_append]
        exact List.mem_append_left _ (List.mem_append_left _ hc)
    · cases xs with
      | nil => cases htail
      | cons y ys =>
        rw [show joinWords (x :: y :: ys) = x ++ " " ++ joinWords (y :: ys) from rfl,
          String.data_append, String.data_append]
        exact List.mem_append_right _ (ih htail hc)

theorem pyInfix_nil (l : List Char) : pyInfix [] l = true := by
  cases l <;> simp [pyInfix, List.isPrefixOf]

/-! ### Dict lemmas -/

theorem dictGet_cons (p : String × ConceptData) (d : ConceptDict) (k : String) :
    dictGet (p :: d) k = if p.1 == k then some p.2 else dictGet d k := by
  by_cases h : p.1 == k <;> simp [dictGet, List.find?, h]

theorem dictGet_none_iff (d : ConceptDict) (k : String) :
    dictGet d k = none ↔ dictContains d k = false := by
  induction d with
  | nil => simp [dictGet, dictContains]
  | cons p d ih =>
    rw [dictGet_cons]
    by_cases h : p.1 == k
    · simp [h, dictContains]
    · simp [h, dictContains, List.any_cons, ih]

theorem dictGet_append (d e : ConceptDict) (k : String) :
    dictGet (d ++ e) k = ((dictGet d k).map some).getD (dictGet e k) := by
  induction d with
  | nil => simp [dictGet, List.find?]
  | cons p d ih =>
    rw [List.cons_append, dictGet_cons, dictGet_cons]
    by_cases h : p.1 == k
    · simp [h]
    · rw [if_neg h, if_neg h]
      exact ih

theorem dictGet_map_set (d : ConceptDict) (k : String) (v : ConceptData) :
    dictGet (d.map (fun p => if p.1 == k then (k, v) else p)) k =
      if dictContains d k then some v else none := by
  induction d with
  | nil => simp [dictGet, dictContains, List.find?]
  | cons p d ih =>
    by_cases h : p.1 == k
    · simp only [List.map_cons, if_pos h, dictGet_cons]
      simp [dictContains, List.any_cons, h]
    · simp only [List.map_cons, if_neg h, dictGet_cons, if_neg h]
      simp only [dictContains, List.any_cons, h, Bool.false_or]
      exact ih

theorem dictGet_map_set_ne (d : ConceptDict) (k k' : String) (v : ConceptData)
    (hne : (k == k') = false) :
    dictGet (d.map (fun p => if p.1 == k then (k, v) else p)) k' = dictGet d k' := by
  induction d with
  | nil => rfl
  | cons p d ih =>
    by_cases h : p.1 == k
    · have hpk : p.1 = k := by simpa using h
      simp only [List.map_cons, if_pos h, dictGet_cons, hpk, hne, if_neg]
      simpa [hne] using ih
    · simp only [List.map_cons, if_neg h, dictGet_cons]
      by_cases hp' : p.1 == k'
      · simp [hp']
      · rw [if_neg hp', if_neg hp']
        exact ih

theorem dictGet_dictSet_same (d : ConceptDict) (k : String) (v : ConceptData) :
    dictGet (dictSet d k v) k = some v := by
  unfold dictSet
  by_cases hmem : dictContains d k
  · rw [if_pos hmem, dictGet_map_set, if_pos hmem]
  · rw [if_neg hmem, dictGet_append]
    have hnone : dictGet d k = none := (dictGet_none_iff d k).mpr (by simpa using hmem)
    rw [hnone]
    simp [dictGet_cons]

theorem dictGet_dictSet_other (d : ConceptDict) (k k' : String) (v : ConceptData)
    (hne : k' ≠ k) :
    dictGet (dictSet d k v) k' = dictGet d k' := by
  have hne' : (k == k') = false := beq_eq_false_iff_ne.mpr (Ne.symm hne)
  unfold dictSet
  by_cases hmem : dictContains d k
  · rw [if_pos hmem]
    exact dictGet_map_set_ne d k k' v hne'
  · rw [if_neg hmem, dictGet_append]
    rw [show dictGet [(k, v)] k' = none by simp [dictGet_cons, hne', dictGet]]
    cases h : dictGet d k' <;> simp

theorem dictContains_iff_mem (d : ConceptDict) (k : String) :
    dictContains d k = true ↔ k ∈ dictKeys d := by
  unfold dictContains dictKeys
  rw [List.any_eq_true]
  constructor
  · rintro ⟨p, hp, he⟩
    exact List.mem_map.mpr ⟨p, hp, by simpa using he⟩
  · intro h
    rcases List.mem_map.mp h with ⟨p, hp, he⟩
    exact ⟨p, hp, by simpa using he⟩

theorem dictGet_eq_none_of_not_mem (d : ConceptDict) (k : String)
    (h : k ∉ dictKeys d) : dictGet d k = none := by
  apply (dictGet_none_iff d k).mpr
  cases hc : dictContains d k
  · rfl
  · exact absurd ((dictContains_iff_mem d k).mp hc) h

theorem dictGet_dictUpdate (e : ConceptDict) :
    ∀ (d : ConceptDict) (k : String), (dictKeys e).Nodup →
      dictGet (dictUpdate d e) k = ((dictGet e k).map some).getD (dictGet d k) := by
  induction e with
  | nil =>
    intro d k _
    simp [dictUpdate, dictGet, List.find?]
  | cons p e ih =>
    intro d k hnodup
    have hnodup' : (p.1 :: dictKeys e).Nodup := hnodup
    have hp : p.1 ∉ dictKeys e := (List.nodup_cons.mp hnodup').1
    have hnd : (dictKeys e).Nodup := (List.nodup_cons.mp hnodup').2
    rw [show dictUpdate d (p :: e) = dictUpdate (dictSet d p.1 p.2) e from rfl]
    rw [ih (dictSet d p.1 p.2) k hnd, dictGet_cons]
    by_cases hpk : p.1 = k
    · subst hpk
      rw [dictGet_eq_none_of_not_mem e p.1 hp, dictGet_dictSet_same d p.1 p.2]
      simp
    · rw [if_neg (by simpa using hpk)]
      rw [dictGet_dictSet_other d p.1 k p.2 (fun h => hpk h.symm)]

theorem dictKeys_dictSet (d : ConceptDict) (k : String) (v : ConceptData) :
    dictKeys (dictSet d k v) =
      if dictContains d k then dictKeys d else dictKeys d ++ [k] := by
  unfold dictSet
  by_cases h : dictContains d k
  · rw [if_pos h, if_pos h]
    unfold dictKeys
    rw [List.map_map]
    apply List.map_congr_left
    intro p _
    by_cases hpk : p.1 = k
    · simp [hpk]
    · simp [hpk]
  · rw [if_neg h, if_neg h]
    simp [dictKeys]

theorem dictKeys_prefix_dictSet (d : ConceptDict) (k : String) (v : ConceptData) :
    dictKeys d <+: dictKeys (dictSet d k v) := by
  rw [dictKeys_dictSet]
  by_cases h : dictContains d k
  · rw [if_pos h]
  · rw [if_neg h]
    exact ⟨[k], rfl⟩

theorem dictKeys_prefix_dictUpdate (e : ConceptDict) :
    ∀ d : ConceptDict, dictKeys d <+: dictKeys (dictUpdate d e) := by
  induction e with
  | nil =>
    intro d
    exact List.prefix_refl _
  | cons p e ih =>
    intro d
    exact (dictKeys_prefix_dictSet d p.1 p.2).trans (ih (dictSet d p.1 p.2))

theorem map_set_filter_ne (d : ConceptDict) (k : String) (v : ConceptData) :
    (d.map (fun p => if p.1 == k then (k, v) else p)).filter (fun p => !(p.1 == k)) =
      d.filter (fun p => !(p.1 == k)) := by
  induction d with
  | nil => rfl
  | cons p d ih =>
    simp only [List.map_cons, List.filter_cons]
    by_cases hp : p.1 = k
    · simp only [hp, if_pos rfl]
      simp
      simpa using ih
    · simp [hp]
      simpa using ih

theorem dictSet_filter_ne (d : ConceptDict) (k : String) (v : ConceptData) :
    (dictSet d k v).filter (fun p => !(p.1 == k)) = d.filter (fun p => !(p.1 == k)) := by
  unfold dictSet
  by_cases h : dictContains d k
  · rw [if_pos h]
    exact map_set_filter_ne d k v
  · rw [if_neg h, List.filter_append]
    simp

/-! ## Claim theorems -/

/-- C4: for any quote `q`, after `add_quote q` has been called, a second
`add_quote q` with identical text leaves the quote collection unchanged and
performs no persist (the boolean, which records whether `save_knowledge_base`
ran, is `false`). -/
theorem claim_C4_add_quote_idempotent (kb : KnowledgeBase) (q : String) :
    add_quote (add_quote kb q).1 q = ((add_quote kb q).1, false) := by
  unfold add_quote
  by_cases h : q ∈ kb.soros_quotes
  · simp [h]
  · simp [h]

/-- C5: `get_random_quote` always returns an element of the current quote
collection, and on an empty collection it fails with the `IndexError` raised
by `random.choice` rather than returning a value. -/
theorem claim_C5_random_quote (kb : KnowledgeBase) (r : Nat) :
    (kb.soros_quotes = [] →
      get_random_quote kb r =
        Except.error "IndexError: Cannot choose from an empty sequence") ∧
    (∀ q, get_random_quote kb r = Except.ok q → q ∈ kb.soros_quotes) := by
  constructor
  · intro h
    unfold get_random_quote
    rw [dif_neg (by simp [h])]
  · intro q h
    unfold get_random_quote at h
    split at h
    · cases h
      exact List.get_mem _ _ _
    · cases h

/-- Witness for C5 at concrete inputs. -/
theorem claim_C5_random_quote_witness :
    get_random_quote { soros_concepts := [], soros_quotes := [] } 5 =
      Except.error "IndexError: Cannot choose from an empty sequence" ∧
    "q0" ∈ ({ soros_concepts := [], soros_quotes := ["q0"] } : KnowledgeBase).soros_quotes := by
  constructor
  · exact (claim_C5_random_quote { soros_concepts := [], soros_quotes := [] } 5).1 rfl
  · exact (claim_C5_random_quote { soros_concepts := [], soros_quotes := ["q0"] } 0).2 "q0" rfl

/-- C7: the combined extraction over the three ordered strategy results
returns the earliest result of greatest character length; a strategy that
throws contributes the empty string (so it neither aborts the others nor can
win), and ties keep the earliest strategy's text. -/
theorem claim_C7_extract_combined (r1 r2 r3 : Except String String) (e : String) :
    (extract_text_combined [r1, r2, r3] =
      (if (methodResult r2).length > (methodResult r1).length then
        (if (methodResult r3).length > (methodResult r2).length then methodResult r3
         else methodResult r2)
       else
        (if (methodResult r3).length > (methodResult r1).length then methodResult r3
         else methodResult r1))) ∧
    (extract_text_combined [r1, r2, r3]).length =
      max (max (methodResult r1).length (methodResult r2).length)
        (methodResult r3).length ∧
    extract_text_combined [Except.error e, r2, r3] =
      extract_text_combined [Except.ok "", r2, r3] := by
  have hfirst : ∀ s : String, (if s.length > ("" : String).length then s else "") = s := by
    intro s
    by_cases h : s.length > 0
    · simp [h]
    · have h0 : s = "" := string_eq_empty_of_length_zero (Nat.eq_zero_of_not_pos h)
      simp [h0]
  have hunf : extract_text_combined [r1, r2, r3] =
      (if (methodResult r3).length >
          (if (methodResult r2).length >
              (if (methodResult r1).length > ("" : String).length then methodResult r1
               else "").length then methodResult r2
           else (if (methodResult r1).length > ("" : String).length then methodResult r1
                 else "")).length then methodResult r3
       else (if (methodResult r2).length >
              (if (methodResult r1).length > ("" : String).length then methodResult r1
               else "").length then methodResult r2
             else (if (methodResult r1).length > ("" : String).length then methodResult r1
                   else ""))) := rfl
  rw [hunf, hfirst (methodResult r1)]
  refine ⟨?_, ?_, rfl⟩
  · by_cases h21 : (methodResult r2).length > (methodResult r1).length
    · simp only [if_pos h21]
    · simp only [if_neg h21]
  · by_cases h21 : (methodResult r2).length > (methodResult r1).length
    · simp only [if_pos h21]
      by_cases h32 : (methodResult r3).length > (methodResult r2).length
      · simp only [if_pos h32]; omega
      · simp only [if_neg h32]; omega
    · simp only [if_neg h21]
      by_cases h31 : (methodResult r3).length > (methodResult r1).length
      · simp only [if_pos h31]; omega
      · simp only [if_neg h31]; omega

/-- C9: searching with the empty-string query returns every concept of the
store in the dict's insertion order, because the empty string is a substring
of every (lower-cased) concept name. -/
theorem claim_C9_search_empty_query (kb : KnowledgeBase) :
    search_concepts kb "" = kb.soros_concepts := by
  unfold search_concepts
  apply List.filter_eq_self.mpr
  intro p _
  have hempty : (pyLower "").data = [] := rfl
  simp only [pyContains, hempty, pyInfix_nil, Bool.true_or]

/-- C6 (amended): the output of `clean_text` contains no `|` character and no
`0` character — `|` is removed by the whitelist filter (so the `|` → `I`
replacement never fires) and every `0` is replaced by `O`. -/
theorem claim_C6_clean_text_chars (text : String) :
    '|' ∉ (clean_text text).data ∧ '0' ∉ (clean_text text).data := by
  unfold clean_text
  constructor
  · intro hmem
    have h5 := mem_stripChars hmem
    rcases List.mem_map.mp h5 with ⟨a, ha4, hfa⟩
    rcases List.mem_map.mp ha4 with ⟨b, _, hfb⟩
    rw [← hfb] at hfa
    by_cases hb : b = '|'
    · subst hb
      simp at hfa
    · by_cases hb0 : b = '0'
      · subst hb0
        simp at hfa
      · simp [hb, hb0] at hfa
  · intro hmem
    have h5 := mem_stripChars hmem
    rcases List.mem_map.mp h5 with ⟨a, _, hfa⟩
    by_cases ha : a = '0'
    · subst ha
      simp at hfa
    · simp [ha] at hfa

/-- Witness for the amended C6 at a concrete input. -/
theorem claim_C6_clean_text_chars_witness :
    '|' ∉ (clean_text "a|b 0c").data ∧ '0' ∉ (clean_text "a|b 0c").data :=
  claim_C6_clean_text_chars "a|b 0c"

/-- C6 counterexample to the claim as stated: a literal `|` is not replaced
by `I` — it has already been deleted by the whitelist filter, so
`clean_text "|"` is the empty string, not `"I"`. -/
theorem claim_C6_counterexample :
    clean_text "|" = "" ∧ clean_text "|" ≠ "I" := by
  constructor
  · decide
  · decide

/-- C3 (amended): if the completion-service call raises an error during
`chat(message)` (with context), `chat` swallows the error and returns the
fixed apologetic fallback embedding the original message — but the transcript
is left unchanged: zero new turns are recorded, because both
`memory.chat_memory.add_*` calls sit after the service call inside the `try`
block and are skipped when it raises. -/
theorem claim_C3_chat_error_fallback (llm : List ChatMessage → Except String String)
    (system_prompt : String) (kb : KnowledgeBase) (r : Nat)
    (history : List ChatMessage) (message cp e : String)
    (hcp : generate_context_prompt kb r message = Except.ok cp)
    (herr : llm (chat_outbound system_prompt history cp) = Except.error e) :
    chat llm system_prompt kb r history message true =
      (chat_fallback message, history) := by
  unfold chat
  simp only [if_true, hcp, herr]

/-- C3 counterexample to the claim as stated: with a completion service that
always raises, `chat` returns the fallback but the transcript gains zero new
turns (the claim asserts one new user turn and one new assistant turn). -/
theorem claim_C3_counterexample :
    (chat (fun _ => Except.error "boom") "sys" initKB 0 [] "hi" true).1 =
      chat_fallback "hi" ∧
    (chat (fun _ => Except.error "boom") "sys" initKB 0 [] "hi" true).2 = [] := by
  constructor
  · rfl
  · rfl

/-- Witness for the amended C3 at concrete inputs. -/
theorem claim_C3_witness :
    chat (fun _ => Except.error "boom") "sys"
        { soros_concepts := [], soros_quotes := ["q"] } 0 [] "hi" true =
      (chat_fallback "hi", []) :=
  claim_C3_chat_error_fallback (fun _ => Except.error "boom") "sys"
    { soros_concepts := [], soros_quotes := ["q"] } 0 [] "hi" _ "boom" rfl rfl

/-- C8: a successful `chat(message)` with `use_context=true` sends an
outbound sequence whose last entry is the ContextBuilder-augmented user turn
(built by `generate_context_prompt`: persona header, one quote, up to the
first 3 concept matches, then the verbatim message) — not the raw message —
and the transcript gains exactly the augmented user turn followed by the
assistant reply. -/
theorem claim_C8_chat_context (llm : List ChatMessage → Except String String)
    (system_prompt : String) (kb : KnowledgeBase) (r : Nat)
    (history : List ChatMessage) (message cp reply : String)
    (hcp : generate_context_prompt kb r message = Except.ok cp)
    (hok : llm (chat_outbound system_prompt history cp) = Except.ok reply) :
    chat llm system_prompt kb r history message true =
      (reply,
       history ++ [ChatMessage.mk Role.user cp, ChatMessage.mk Role.assistant reply]) ∧
    (chat_outbound system_prompt history cp).getLast? =
      some (ChatMessage.mk Role.user cp) ∧
    cp ≠ message := by
  refine ⟨?_, ?_, ?_⟩
  · unfold chat
    simp only [if_true, hcp, hok]
  · unfold chat_outbound
    rw [← List.cons_append]
    exact List.getLast?_concat _
  · unfold generate_context_prompt at hcp
    cases hq : get_random_quote kb r with
    | error e =>
      rw [hq] at hcp
      simp at hcp
    | ok quote =>
      rw [hq] at hcp
      simp only [Except.ok.injEq] at hcp
      intro hcm
      rw [← hcp] at hcm
      have hlen := congrArg String.length hcm
      rw [String.length_append, String.length_append, String.length_append] at hlen
      have hf : 0 < context_footer.length := by decide
      omega

/-- Witness for C8 at concrete inputs. -/
theorem claim_C8_chat_context_witness :
    chat (fun _ => Except.ok "reply") "sys"
        { soros_concepts := [], soros_quotes := ["q"] } 0 [] "hi" true =
      ("reply",
       [] ++ [ChatMessage.mk Role.user
                (context_header "q" ++ concepts_block [] ++ (context_footer ++ "hi")),
              ChatMessage.mk Role.assistant "reply"]) ∧
    (chat_outbound "sys" []
        (context_header "q" ++ concepts_block [] ++ (context_footer ++ "hi"))).getLast? =
      some (ChatMessage.mk Role.user
              (context_header "q" ++ concepts_block [] ++ (context_footer ++ "hi"))) ∧
    context_header "q" ++ concepts_block [] ++ (context_footer ++ "hi") ≠ "hi" :=
  claim_C8_chat_context (fun _ => Except.ok "reply") "sys"
    { soros_concepts := [], soros_quotes := ["q"] } 0 [] "hi"
    (context_header "q" ++ concepts_block [] ++ (context_footer ++ "hi")) "reply" rfl rfl

/-- C2 (amended): writing a `KnowledgeStore` snapshot and constructing a
fresh store from that file reproduces the concept mapping (disk values
override seed values key by key), but does NOT reproduce the quote sequence:
the fresh store's quotes are the seed quotes followed by the entire saved
quote sequence, so every saved quote that is already in the seed appears
twice. The hypotheses say the saved store's concept dict has well-formed
(duplicate-free) keys and still contains every seed key — true of every
store the program can actually build. -/
theorem claim_C2_roundtrip (s : KnowledgeBase)
    (hkeys : ∀ k, dictContains seed_concepts k = true →
      dictContains s.soros_concepts k = true)
    (hnodup : (dictKeys s.soros_concepts).Nodup) :
    (∀ k, dictGet (sorosKB_init (some (save_knowledge_base s))).soros_concepts k =
      dictGet s.soros_concepts k) ∧
    (sorosKB_init (some (save_knowledge_base s))).soros_quotes =
      seed_quotes ++ s.soros_quotes := by
  constructor
  · intro k
    show dictGet (dictUpdate seed_concepts s.soros_concepts) k = _
    rw [dictGet_dictUpdate s.soros_concepts seed_concepts k hnodup]
    cases hs : dictGet s.soros_concepts k with
    | some v => rfl
    | none =>
      have hcont : dictContains s.soros_concepts k = false := (dictGet_none_iff _ _).mp hs
      have hseed : dictContains seed_concepts k = false := by
        cases hc : dictContains seed_concepts k
        · rfl
        · rw [hkeys k hc] at hcont
          cases hcont
      simp [(dictGet_none_iff seed_concepts k).mpr hseed]
  · rfl

/-- C2 counterexample to the claim as stated: saving the freshly seeded store
and reloading it does not reproduce the quote sequence — the seed quotes are
duplicated (16 quotes instead of 8). -/
theorem claim_C2_counterexample :
    (sorosKB_init (some (save_knowledge_base (sorosKB_init none)))).soros_quotes ≠
      (sorosKB_init none).soros_quotes := by
  intro h
  have h1 : (sorosKB_init (some (save_knowledge_base (sorosKB_init none)))).soros_quotes.length
      = 16 := rfl
  have h2 : (sorosKB_init none).soros_quotes.length = 8 := rfl
  rw [h, h2] at h1
  cases h1

/-- Witness for the amended C2 at the concrete seeded store. -/
theorem claim_C2_roundtrip_witness :
    dictGet (sorosKB_init (some (save_knowledge_base initKB))).soros_concepts
        "reflexivity" = dictGet initKB.soros_concepts "reflexivity" ∧
    (sorosKB_init (some (save_knowledge_base initKB))).soros_quotes =
      seed_quotes ++ initKB.soros_quotes := by
  have h := claim_C2_roundtrip initKB (fun _ hc => hc) (by decide)
  exact ⟨h.1 "reflexivity", h.2⟩

/-- C10: the concept dict and the quote sequence only grow. `add_concept`
extends the key list (upsert keeps all existing keys and leaves every
other-named concept untouched) and never touches quotes; `add_quote` at most
appends one quote and never touches concepts; `load_knowledge_base` only
extends keys and appends quotes; the `load_pdf` quote folding only appends.
(`search_concepts`, `get_random_quote`, `save_knowledge_base`,
`generate_context_prompt` and `extract_from_pdf` are read-only in the source:
they assign no state.) -/
theorem claim_C10_monotone (kb : KnowledgeBase) (n df q : String)
    (kps : List String) (file : Option KBData) (qs : List String) :
    dictKeys kb.soros_concepts <+:
      dictKeys (add_concept kb n df kps).1.soros_concepts ∧
    (add_concept kb n df kps).1.soros_concepts.filter (fun p => !(p.1 == n)) =
      kb.soros_concepts.filter (fun p => !(p.1 == n)) ∧
    (add_concept kb n df kps).1.soros_quotes = kb.soros_quotes ∧
    kb.soros_quotes <+: (add_quote kb q).1.soros_quotes ∧
    (add_quote kb q).1.soros_concepts = kb.soros_concepts ∧
    dictKeys kb.soros_concepts <+:
      dictKeys (load_knowledge_base kb file).soros_concepts ∧
    kb.soros_quotes <+: (load_knowledge_base kb file).soros_quotes ∧
    kb.soros_quotes <+: (foldAddQuotes kb qs).soros_quotes := by
  refine ⟨?_, ?_, rfl, ?_, ?_, ?_, ?_, ?_⟩
  · exact dictKeys_prefix_dictSet kb.soros_concepts n _
  · exact dictSet_filter_ne kb.soros_concepts n _
  · unfold add_quote
    by_cases h : q ∈ kb.soros_quotes
    · rw [if_pos h]
    · rw [if_neg h]
      exact ⟨[q], rfl⟩
  · unfold add_quote
    by_cases h : q ∈ kb.soros_quotes
    · rw [if_pos h]
    · rw [if_neg h]
  · cases file with
    | none => exact List.prefix_refl _
    | some data => exact dictKeys_prefix_dictUpdate data.concepts kb.soros_concepts
  · cases file with
    | none => exact List.prefix_refl _
    | some data => exact ⟨data.quotes, rfl⟩
  · show kb.soros_quotes <+: (foldAddQuotes kb qs).soros_quotes
    induction qs generalizing kb with
    | nil => exact List.prefix_refl _
    | cons x xs ih =>
      have hstep : kb.soros_quotes <+: (add_quote kb x).1.soros_quotes := by
        unfold add_quote
        by_cases h : x ∈ kb.soros_quotes
        · rw [if_pos h]
        · rw [if_neg h]
          exact ⟨[x], rfl⟩
      exact hstep.trans (ih (add_quote kb x).1)

theorem pyStrip_joinWords_ne {l : List String} (hne : l ≠ [])
    (hw : ∀ w ∈ l, ∃ c ∈ w.data, ¬ c.isWhitespace = true) :
    pyStrip (joinWords l) ≠ "" := by
  rcases List.exists_mem_of_ne_nil l hne with ⟨w, hwmem⟩
  rcases hw w hwmem with ⟨c, hc, hcw⟩
  exact pyStrip_ne_empty (mem_joinWords_data hwmem hc) hcw

theorem drop_ne_nil_of_lt {ws : List String} {n : Nat} (h : n < ws.length) :
    ws.drop n ≠ [] := by
  intro hnil
  have hlen := congrArg List.length hnil
  rw [List.length_drop] at hlen
  simp only [List.length_nil] at hlen
  omega

theorem chunks_len_1000 (ws : List String) (h : ws.length = 1000)
    (hw : ∀ w ∈ ws, ∃ c ∈ w.data, ¬ c.isWhitespace = true) :
    split_into_chunks ws 1000 200 = [joinWords ws, joinWords (ws.drop 800)] := by
  unfold split_into_chunks
  rw [h, show pyRange 1000 (1000 - 200) = [0, 800] by decide]
  have e0 : (ws.drop 0).take 1000 = ws := by
    rw [List.drop_zero]
    exact List.take_of_length_le (by omega)
  have e8 : (ws.drop 800).take 1000 = ws.drop 800 := by
    apply List.take_of_length_le
    rw [List.length_drop]
    omega
  have hne : ws ≠ [] := by
    intro hnil
    rw [hnil] at h
    cases h
  have hne8 : ws.drop 800 ≠ [] := drop_ne_nil_of_lt (by omega)
  have hw8 : ∀ w ∈ ws.drop 800, ∃ c ∈ w.data, ¬ c.isWhitespace = true :=
    fun w hm => hw w (List.drop_subset 800 ws hm)
  have t0 : pyStrip (joinWords ws) ≠ "" := pyStrip_joinWords_ne hne hw
  have t8 : pyStrip (joinWords (ws.drop 800)) ≠ "" := pyStrip_joinWords_ne hne8 hw8
  simp only [List.foldl_cons, List.foldl_nil]
  rw [e0, e8, if_pos t0, if_pos t8]
  rfl

theorem chunks_len_1800 (ws : List String) (h : ws.length = 1800)
    (hw : ∀ w ∈ ws, ∃ c ∈ w.data, ¬ c.isWhitespace = true) :
    split_into_chunks ws 1000 200 =
      [joinWords (ws.take 1000), joinWords (ws.drop 800), joinWords (ws.drop 1600)] := by
  unfold split_into_chunks
  rw [h, show pyRange 1800 (1000 - 200) = [0, 800, 1600] by decide]
  have e0 : (ws.drop 0).take 1000 = ws.take 1000 := by rw [List.drop_zero]
  have e8 : (ws.drop 800).take 1000 = ws.drop 800 := by
    apply List.take_of_length_le
    rw [List.length_drop]
    omega
  have e16 : (ws.drop 1600).take 1000 = ws.drop 1600 := by
    apply List.take_of_length_le
    rw [List.length_drop]
    omega
  have hne0 : ws.take 1000 ≠ [] := by
    intro hnil
    have hlen := congrArg List.length hnil
    rw [List.length_take] at hlen
    simp only [List.length_nil] at hlen
    omega
  have hw0 : ∀ w ∈ ws.take 1000, ∃ c ∈ w.data, ¬ c.isWhitespace = true :=
    fun w hm => hw w (List.take_subset 1000 ws hm)
  have hw8 : ∀ w ∈ ws.drop 800, ∃ c ∈ w.data, ¬ c.isWhitespace = true :=
    fun w hm => hw w (List.drop_subset 800 ws hm)
  have hw16 : ∀ w ∈ ws.drop 1600, ∃ c ∈ w.data, ¬ c.isWhitespace = true :=
    fun w hm => hw w (List.drop_subset 1600 ws hm)
  have t0 : pyStrip (joinWords (ws.take 1000)) ≠ "" := pyStrip_joinWords_ne hne0 hw0
  have t8 : pyStrip (joinWords (ws.drop 800)) ≠ "" :=
    pyStrip_joinWords_ne (drop_ne_nil_of_lt (by omega)) hw8
  have t16 : pyStrip (joinWords (ws.drop 1600)) ≠ "" :=
    pyStrip_joinWords_ne (drop_ne_nil_of_lt (by omega)) hw16
  simp only [List.foldl_cons, List.foldl_nil]
  rw [e0, e8, e16, if_pos t0, if_pos t8, if_pos t16]
  rfl

/-- C1 (amended): with the default parameters 1000/200, a text of exactly
`chunk_size` words yields TWO chunks, not one — the whole text followed by a
trailing chunk of the last `overlap` words; and a text of exactly
`2*chunk_size - overlap` words yields THREE chunks, not two — two full
windows overlapping by `overlap` words, then a trailing chunk of the last
`overlap` words. (Each word, coming from `str.split`, contains a
non-whitespace character.) -/
theorem claim_C1_chunks (ws ws' : List String)
    (h1 : ws.length = 1000)
    (hw1 : ∀ w ∈ ws, ∃ c ∈ w.data, ¬ c.isWhitespace = true)
    (h2 : ws'.length = 1800)
    (hw2 : ∀ w ∈ ws', ∃ c ∈ w.data, ¬ c.isWhitespace = true) :
    split_into_chunks ws 1000 200 = [joinWords ws, joinWords (ws.drop 800)] ∧
    (ws.drop 800).length = 200 ∧
    split_into_chunks ws' 1000 200 =
      [joinWords (ws'.take 1000), joinWords (ws'.drop 800),
       joinWords (ws'.drop 1600)] ∧
    (ws'.take 1000).drop 800 = (ws'.drop 800).take 200 ∧
    (ws'.drop 1600).length = 200 := by
  refine ⟨chunks_len_1000 ws h1 hw1, ?_, chunks_len_1800 ws' h2 hw2, ?_, ?_⟩
  · rw [List.length_drop, h1]
  · rw [List.drop_take]
  · rw [List.length_drop, h2]

/-- C1 counterexample to the claim as stated: a text of exactly 1000
single-letter words produces two chunks, not one. -/
theorem claim_C1_counterexample :
    (split_into_chunks (List.replicate 1000 "a") 1000 200).length = 2 ∧
    (split_into_chunks (List.replicate 1000 "a") 1000 200).length ≠ 1 := by
  have h := chunks_len_1000 (List.replicate 1000 "a") (List.length_replicate 1000 "a")
    (fun w hm => by
      rw [List.eq_of_mem_replicate hm]
      exact ⟨'a', by decide, by decide⟩)
  rw [h]
  exact ⟨rfl, by decide⟩

/-- Witness for the amended C1 at concrete word lists. -/
theorem claim_C1_chunks_witness :
    split_into_chunks (List.replicate 1000 "a") 1000 200 =
      [joinWords (List.replicate 1000 "a"),
       joinWords ((List.replicate 1000 "a").drop 800)] ∧
    split_into_chunks (List.replicate 1800 "b") 1000 200 =
      [joinWords ((List.replicate 1800 "b").take 1000),
       joinWords ((List.replicate 1800 "b").drop 800),
       joinWords ((List.replicate 1800 "b").drop 1600)] := by
  have h := claim_C1_chunks (List.replicate 1000 "a") (List.replicate 1800 "b")
    (List.length_replicate 1000 "a")
    (fun w hm => by
      rw [List.eq_of_mem_replicate hm]
      exact ⟨'a', by decide, by decide⟩)
    (List.length_replicate 1800 "b")
    (fun w hm => by
      rw [List.eq_of_mem_replicate hm]
      exact ⟨'b', by decide, by decide⟩)
  exact ⟨h.1, h.2.2.1⟩

end SorosSpec
